import Mathlib

/-!
Verification of the array pretty-printing engine of `ndarray`
(`src/arrayformat.rs`): the truncation planner `to_be_printed`, the
one-dimensional renderer `format_1d_array`, the recursive renderer
`format_array` and the formatting-trait adapters.

The output sink and the element formatter are modelled by a fault
oracle: every primitive call (one sink write, or one element-formatter
invocation) is numbered, and the oracle decides which call fails.  A
formatting computation maps the oracle and the sink state (call counter
plus the list of fragments successfully written) to the final state and
a success flag, mirroring the `fmt::Result` plumbing of the Rust code.
-/

namespace NdarrayFormat

/-- Value of the constant PRINT_ELEMENTS_LIMIT in arrayformat.rs. -/
def PRINT_ELEMENTS_LIMIT : Nat := 3

/-- Transient planner cell, the Rust enum PrintableCell. -/
inductive PrintableCell where
  | elementIndex (i : Nat) : PrintableCell
  | ellipses : PrintableCell
deriving DecidableEq, Repr

/-- Truncation planner `to_be_printed` from arrayformat.rs: which indexes
of an axis of length `length` are printed, with an ellipsis cell where
indexes are omitted. -/
def to_be_printed (length limit : Nat) : List PrintableCell :=
  if length ≤ 2 * limit then
    (List.range length).map PrintableCell.elementIndex
  else
    ((List.range limit).map PrintableCell.elementIndex
        ++ [PrintableCell.ellipses])
      ++ (List.range' (length - limit) limit).map PrintableCell.elementIndex

/-- Sink state: number of primitive calls attempted so far, and the list
of fragments successfully written. -/
structure St where
  calls : Nat
  out : List String
deriving DecidableEq, Repr

/-- Fault oracle: for each call number, whether that call fails. -/
def Oracle : Type := Nat → Bool

/-- A formatting computation (the shape of a Rust function writing through
a formatter and returning fmt::Result). -/
def FmtM : Type := Oracle → St → St × Bool

/-- The computation that writes nothing (Ok(())). -/
def fmtPure : FmtM := fun _ s => (s, true)

/-- Sequencing with the `?` operator: run `a`; on failure stop, otherwise
run `b`. -/
def fmtBind (a b : FmtM) : FmtM := fun orc s =>
  let r := a orc s
  if r.2 then b orc r.1 else r

/-- One primitive call writing fragment `str`: a sink write, or one
element-formatter invocation producing `str`.  A failing call writes
nothing. -/
def wr (str : String) : FmtM := fun orc s =>
  if orc s.calls then ({ calls := s.calls + 1, out := s.out }, false)
  else ({ calls := s.calls + 1, out := s.out ++ [str] }, true)

/-- The oracle under which no call fails. -/
def allOk : Oracle := fun _ => false

/-- The oracle under which exactly call number `k` fails. -/
def failAt (k : Nat) : Oracle := fun n => n == k

/-- Initial sink state. -/
def St.init : St := { calls := 0, out := [] }

/-- Reference machine: perform the calls of a fragment list in order,
stopping at the first failing call. -/
def runOps (fr : List String) : FmtM :=
  fr.foldr (fun f m => fmtBind (wr f) m) fmtPure

/-- Read-only view of an n-dimensional array (the ArrayBase collaborator):
per-axis lengths, element lookup by multi-index, and the extra data the
Debug flavor formats (strides, layout classification and the rank-kind
marker D::NDIM). -/
structure View (α : Type) where
  shape : List Nat
  get : List Nat → α
  strides : List Int
  layout : String
  NDIM : Option Nat

/-- Rank of the view (ndim). -/
def View.ndim (v : View α) : Nat := v.shape.length

/-- Length of a rank-1 view (len). -/
def View.len (v : View α) : Nat := v.shape.headD 0

/-- Sub-view fixing the leading axis to index `i`: the Rust
`view.into_dyn().index_axis(Axis(0), i)`; rank decreases by one. -/
def View.index_axis (v : View α) (i : Nat) : View α where
  shape := v.shape.tail
  get := fun idx => v.get (i :: idx)
  strides := v.strides.tail
  layout := v.layout
  NDIM := none

/-- String repetition, Rust str::repeat. -/
def strRepeat (s : String) (n : Nat) : String :=
  String.join (List.replicate n s)

/-- The loop body of format_1d_array over the planner cells, with `j` the
current enumeration index and `n` the total number of cells. -/
def format_1d_go (view : View α) (format : α → String) :
    List PrintableCell → Nat → Nat → FmtM
  | [], _, _ => fmtPure
  | PrintableCell.elementIndex i :: rest, j, n =>
    fmtBind
      (fmtBind (wr (format (view.get [i])))
        (if j ≠ n - 1 then wr ", " else fmtPure))
      (format_1d_go view format rest (j + 1) n)
  | PrintableCell.ellipses :: rest, j, n =>
    fmtBind (wr "..., ") (format_1d_go view format rest (j + 1) n)

/-- format_1d_array from arrayformat.rs: render a rank-1 view. -/
def format_1d_array (view : View α) (format : α → String) (limit : Nat) :
    FmtM :=
  let tbp := to_be_printed view.len limit
  fmtBind (wr "[")
    (fmtBind (format_1d_go view format tbp 0 tbp.length) (wr "]"))

/-- The loop body of the n-dimensional branch of format_array, with the
recursive call on the sub-view abstracted as `sub`. -/
def format_nd_go (sub : Nat → FmtM) :
    List PrintableCell → Nat → Nat → FmtM
  | [], _, _ => fmtPure
  | PrintableCell.elementIndex i :: rest, j, n =>
    fmtBind
      (fmtBind (sub i) (if j ≠ n - 1 then wr ",\n " else fmtPure))
      (format_nd_go sub rest (j + 1) n)
  | PrintableCell.ellipses :: rest, j, n =>
    fmtBind (wr "...,\n ") (format_nd_go sub rest (j + 1) n)

/-- format_array from arrayformat.rs: zero-length-axis short-circuit,
scalar and rank-1 base cases, and the recursive case over the leading
axis. -/
def format_array (view : View α) (format : α → String) (limit : Nat) :
    FmtM :=
  if view.shape.contains 0 then
    wr (strRepeat "[" view.ndim ++ strRepeat "]" view.ndim)
  else
    match h : view.shape with
    | [] => wr (format (view.get []))
    | [_] => format_1d_array view format limit
    | d0 :: _ :: _ =>
      let tbp := to_be_printed d0 limit
      fmtBind (wr "[")
        (fmtBind
          (format_nd_go
            (fun i => format_array (view.index_axis i) format limit)
            tbp 0 tbp.length)
          (wr "]"))
termination_by view.shape.length
decreasing_by simp [View.index_axis, h]

/-- Output of a complete render under the fault-free oracle. -/
def renderOut (view : View α) (format : α → String) (limit : Nat) :
    String :=
  String.join ((format_array view format limit allOk St.init).1.out)

/-- The fmt::Display adapter: format_array with the Display capability of
the element type. -/
def displayFmt (view : View α) (format : α → String) : FmtM :=
  format_array view format PRINT_ELEMENTS_LIMIT

/-- The fmt::LowerExp adapter. -/
def lowerExpFmt (view : View α) (format : α → String) : FmtM :=
  format_array view format PRINT_ELEMENTS_LIMIT

/-- The fmt::UpperExp adapter. -/
def upperExpFmt (view : View α) (format : α → String) : FmtM :=
  format_array view format PRINT_ELEMENTS_LIMIT

/-- The fmt::LowerHex adapter. -/
def lowerHexFmt (view : View α) (format : α → String) : FmtM :=
  format_array view format PRINT_ELEMENTS_LIMIT

/-- The fmt::Binary adapter. -/
def binaryFmt (view : View α) (format : α → String) : FmtM :=
  format_array view format PRINT_ELEMENTS_LIMIT

/-- Debug text of a Rust slice of numbers, as in the shape and strides
lists of the Debug suffix. -/
def sliceDebug (l : List String) : String :=
  "[" ++ String.intercalate ", " l ++ "]"

/-- First diagnostic write of the Debug adapter. -/
def debugShapeInfo (view : View α) : String :=
  " shape=" ++ sliceDebug (view.shape.map toString)
    ++ ", strides=" ++ sliceDebug (view.strides.map toString)
    ++ ", layout=" ++ view.layout

/-- Second diagnostic write of the Debug adapter, depending on D::NDIM. -/
def debugNdimInfo (view : View α) : String :=
  match view.NDIM with
  | some ndim => ", const ndim=" ++ toString ndim
  | none => ", dynamic ndim=" ++ toString view.ndim

/-- The fmt::Debug adapter: the body via format_array, then the extra
diagnostic information. -/
def debugFmt (view : View α) (format : α → String) : FmtM :=
  fmtBind (format_array view format PRINT_ELEMENTS_LIMIT)
    (fmtBind (wr (debugShapeInfo view)) (wr (debugNdimInfo view)))

/-- Output of a complete Debug render under the fault-free oracle. -/
def debugOut (view : View α) (format : α → String) : String :=
  String.join ((debugFmt view format allOk St.init).1.out)

/-- Variant of format_array with the zero-length-axis check removed,
used to show the check never fires below the top level. -/
def format_array_nocheck (view : View α) (format : α → String)
    (limit : Nat) : FmtM :=
  match h : view.shape with
  | [] => wr (format (view.get []))
  | [_] => format_1d_array view format limit
  | d0 :: _ :: _ =>
    let tbp := to_be_printed d0 limit
    fmtBind (wr "[")
      (fmtBind
        (format_nd_go
          (fun i => format_array_nocheck (view.index_axis i) format limit)
          tbp 0 tbp.length)
        (wr "]"))
termination_by view.shape.length
decreasing_by simp [View.index_axis, h]

/-- Modelled from the spec: `view.iter().next()` of the array/storage
collaborator (not under src/) — the first element of the element
iterator, which exists exactly when the array holds at least one element,
that is when no axis length is 0; for an empty shape the sole element
sits at the all-zero multi-index. -/
def iterNext (view : View α) : Option α :=
  if view.shape.contains 0 then none
  else some (view.get (List.replicate view.shape.length 0))

/-- Modelled from the spec: `into_dimensionality::<Ix1>()` of the
array/storage collaborator (not under src/) — rank conversion to the
one-dimensional view type, which succeeds exactly when the rank is 1. -/
def into_dimensionality_Ix1 (view : View α) : Option (View α) :=
  if view.shape.length = 1 then some view else none

/-- Loop body of the checked renderer: none as soon as any recursive
render is none. -/
def format_nd_go_chk (sub : Nat → Option FmtM) :
    List PrintableCell → Nat → Nat → Option FmtM
  | [], _, _ => some fmtPure
  | PrintableCell.elementIndex i :: rest, j, n =>
    match sub i, format_nd_go_chk sub rest (j + 1) n with
    | some a, some b =>
      some (fmtBind (fmtBind a (if j ≠ n - 1 then wr ",\n " else fmtPure)) b)
    | _, _ => none
  | PrintableCell.ellipses :: rest, j, n =>
    (format_nd_go_chk sub rest (j + 1) n).map
      (fun b => fmtBind (wr "...,\n ") b)

/-- format_array with its two `unwrap` calls made explicit: `none` marks
the panic that would occur if `iter().next()` or
`into_dimensionality::<Ix1>()` failed. -/
def format_array_chk (view : View α) (format : α → String) (limit : Nat) :
    Option FmtM :=
  if view.shape.contains 0 then
    some (wr (strRepeat "[" view.ndim ++ strRepeat "]" view.ndim))
  else
    match h : view.shape with
    | [] => (iterNext view).map (fun a => wr (format a))
    | [_] =>
      (into_dimensionality_Ix1 view).map
        (fun w => format_1d_array w format limit)
    | d0 :: _ :: _ =>
      let tbp := to_be_printed d0 limit
      (format_nd_go_chk
          (fun i => format_array_chk (view.index_axis i) format limit)
          tbp 0 tbp.length).map
        (fun body => fmtBind (wr "[") (fmtBind body (wr "]")))
termination_by view.shape.length
decreasing_by simp [View.index_axis, h]

/-- Fragment trace of the 1-d loop body. -/
def trace_1d_go (view : View α) (format : α → String) :
    List PrintableCell → Nat → Nat → List String
  | [], _, _ => []
  | PrintableCell.elementIndex i :: rest, j, n =>
    (format (view.get [i]) :: (if j ≠ n - 1 then [", "] else []))
      ++ trace_1d_go view format rest (j + 1) n
  | PrintableCell.ellipses :: rest, j, n =>
    "..., " :: trace_1d_go view format rest (j + 1) n

/-- Fragment trace of format_1d_array. -/
def trace_1d (view : View α) (format : α → String) (limit : Nat) :
    List String :=
  let tbp := to_be_printed view.len limit
  "[" :: trace_1d_go view format tbp 0 tbp.length ++ ["]"]

/-- Fragment trace of the n-dimensional loop body. -/
def trace_nd_go (sub : Nat → List String) :
    List PrintableCell → Nat → Nat → List String
  | [], _, _ => []
  | PrintableCell.elementIndex i :: rest, j, n =>
    (sub i ++ (if j ≠ n - 1 then [",\n "] else []))
      ++ trace_nd_go sub rest (j + 1) n
  | PrintableCell.ellipses :: rest, j, n =>
    "...,\n " :: trace_nd_go sub rest (j + 1) n

/-- Fragment trace of format_array: the sequence of fragments a fault-free
render writes, one per primitive call. -/
def trace_array (view : View α) (format : α → String) (limit : Nat) :
    List String :=
  if view.shape.contains 0 then
    [strRepeat "[" view.ndim ++ strRepeat "]" view.ndim]
  else
    match h : view.shape with
    | [] => [format (view.get [])]
    | [_] => trace_1d view format limit
    | d0 :: _ :: _ =>
      let tbp := to_be_printed d0 limit
      "[" :: trace_nd_go
          (fun i => trace_array (view.index_axis i) format limit)
          tbp 0 tbp.length
        ++ ["]"]
termination_by view.shape.length
decreasing_by simp [View.index_axis, h]

/-! Basic laws of the formatting monad and the reference machine. -/

theorem fmtBind_pure_left (a : FmtM) : fmtBind fmtPure a = a := by
  funext orc s
  simp [fmtBind, fmtPure]

theorem fmtBind_pure_right (a : FmtM) : fmtBind a fmtPure = a := by
  funext orc s
  simp only [fmtBind]
  rcases ha : a orc s with ⟨s1, ok⟩
  cases ok <;> simp [fmtPure]

theorem fmtBind_assoc (a b c : FmtM) :
    fmtBind (fmtBind a b) c = fmtBind a (fmtBind b c) := by
  funext orc s
  simp only [fmtBind]
  rcases ha : a orc s with ⟨s1, ok⟩
  cases ok <;> simp

theorem runOps_nil : runOps [] = fmtPure := rfl

theorem runOps_cons (f : String) (fr : List String) :
    runOps (f :: fr) = fmtBind (wr f) (runOps fr) := rfl

theorem wr_eq_runOps (f : String) : wr f = runOps [f] := by
  rw [runOps_cons, runOps_nil, fmtBind_pure_right]

theorem runOps_append (a b : List String) :
    runOps (a ++ b) = fmtBind (runOps a) (runOps b) := by
  induction a with
  | nil => rw [List.nil_append, runOps_nil, fmtBind_pure_left]
  | cons f rest ih =>
    rw [List.cons_append, runOps_cons, runOps_cons, ih, fmtBind_assoc]

/-! Branch equations of the recursive definitions. -/

theorem format_array_zero_branch (view : View α) (format : α → String)
    (limit : Nat) (h : view.shape.contains 0 = true) :
    format_array view format limit
      = wr (strRepeat "[" view.ndim ++ strRepeat "]" view.ndim) := by
  rw [format_array.eq_def, h]
  simp

theorem format_array_scalar_branch (view : View α) (format : α → String)
    (limit : Nat) (hs : view.shape = []) :
    format_array view format limit = wr (format (view.get [])) := by
  obtain ⟨sh, g, st, ly, nd⟩ := view
  change sh = [] at hs
  subst hs
  rw [format_array.eq_def]
  rfl

theorem format_array_one_branch (view : View α) (format : α → String)
    (limit : Nat) (d : Nat) (hs : view.shape = [d])
    (hz : view.shape.contains 0 = false) :
    format_array view format limit = format_1d_array view format limit := by
  obtain ⟨sh, g, st, ly, nd⟩ := view
  change sh = [d] at hs
  subst hs
  rw [format_array.eq_def]
  rw [show (List.contains [d] 0) = false from hz]
  rfl

theorem format_array_nd_branch (view : View α) (format : α → String)
    (limit : Nat) (d0 d1 : Nat) (rest : List Nat)
    (hs : view.shape = d0 :: d1 :: rest)
    (hz : view.shape.contains 0 = false) :
    format_array view format limit
      = fmtBind (wr "[")
          (fmtBind
            (format_nd_go
              (fun i => format_array (view.index_axis i) format limit)
              (to_be_printed d0 limit) 0 (to_be_printed d0 limit).length)
            (wr "]")) := by
  obtain ⟨sh, g, st, ly, nd⟩ := view
  change sh = d0 :: d1 :: rest at hs
  subst hs
  rw [format_array.eq_def]
  rw [show (List.contains (d0 :: d1 :: rest) 0) = false from hz]
  rfl

theorem trace_array_zero_branch (view : View α) (format : α → String)
    (limit : Nat) (h : view.shape.contains 0 = true) :
    trace_array view format limit
      = [strRepeat "[" view.ndim ++ strRepeat "]" view.ndim] := by
  rw [trace_array.eq_def, h]
  simp

theorem trace_array_scalar_branch (view : View α) (format : α → String)
    (limit : Nat) (hs : view.shape = []) :
    trace_array view format limit = [format (view.get [])] := by
  obtain ⟨sh, g, st, ly, nd⟩ := view
  change sh = [] at hs
  subst hs
  rw [trace_array.eq_def]
  rfl

theorem trace_array_one_branch (view : View α) (format : α → String)
    (limit : Nat) (d : Nat) (hs : view.shape = [d])
    (hz : view.shape.contains 0 = false) :
    trace_array view format limit = trace_1d view format limit := by
  obtain ⟨sh, g, st, ly, nd⟩ := view
  change sh = [d] at hs
  subst hs
  rw [trace_array.eq_def]
  rw [show (List.contains [d] 0) = false from hz]
  rfl

theorem trace_array_nd_branch (view : View α) (format : α → String)
    (limit : Nat) (d0 d1 : Nat) (rest : List Nat)
    (hs : view.shape = d0 :: d1 :: rest)
    (hz : view.shape.contains 0 = false) :
    trace_array view format limit
      = "[" :: trace_nd_go
            (fun i => trace_array (view.index_axis i) format limit)
            (to_be_printed d0 limit) 0 (to_be_printed d0 limit).length
          ++ ["]"] := by
  obtain ⟨sh, g, st, ly, nd⟩ := view
  change sh = d0 :: d1 :: rest at hs
  subst hs
  rw [trace_array.eq_def]
  rw [show (List.contains (d0 :: d1 :: rest) 0) = false from hz]
  rfl

/-! Simulation: every renderer equals the reference machine on its
fragment trace. -/

theorem format_1d_go_eq_runOps (view : View α) (format : α → String)
    (cells : List PrintableCell) (j n : Nat) :
    format_1d_go view format cells j n
      = runOps (trace_1d_go view format cells j n) := by
  induction cells generalizing j with
  | nil => rfl
  | cons c rest ih =>
    cases c with
    | elementIndex i =>
      by_cases hj : j ≠ n - 1
      · simp only [format_1d_go, trace_1d_go, if_pos hj, ih,
          List.cons_append, List.nil_append, runOps_cons, fmtBind_assoc]
      · simp only [format_1d_go, trace_1d_go, if_neg hj, ih,
          List.cons_append, List.nil_append, runOps_cons, fmtBind_pure_right]
    | ellipses =>
      simp only [format_1d_go, trace_1d_go, ih, runOps_cons]

theorem format_1d_array_eq_runOps (view : View α) (format : α → String)
    (limit : Nat) :
    format_1d_array view format limit
      = runOps (trace_1d view format limit) := by
  simp only [format_1d_array, trace_1d, format_1d_go_eq_runOps]
  rw [runOps_append, runOps_cons, ← wr_eq_runOps, fmtBind_assoc]

theorem format_nd_go_eq_runOps (sub : Nat → FmtM) (subtr : Nat → List String)
    (hsub : ∀ i, sub i = runOps (subtr i))
    (cells : List PrintableCell) (j n : Nat) :
    format_nd_go sub cells j n = runOps (trace_nd_go subtr cells j n) := by
  induction cells generalizing j with
  | nil => rfl
  | cons c rest ih =>
    cases c with
    | elementIndex i =>
      by_cases hj : j ≠ n - 1
      · simp only [format_nd_go, trace_nd_go, if_pos hj, ih, hsub,
          runOps_append, runOps_cons, runOps_nil, fmtBind_assoc,
          fmtBind_pure_right]
      · simp only [format_nd_go, trace_nd_go, if_neg hj, ih, hsub,
          List.append_nil, runOps_append, fmtBind_pure_right]
    | ellipses =>
      simp only [format_nd_go, trace_nd_go, ih, runOps_cons]

theorem format_array_eq_runOps (view : View α) (format : α → String)
    (limit : Nat) :
    format_array view format limit
      = runOps (trace_array view format limit) := by
  generalize hn : view.shape.length = n
  induction n generalizing view with
  | zero =>
    have hs : view.shape = [] := List.length_eq_zero.mp hn
    rw [format_array_scalar_branch view format limit hs,
      trace_array_scalar_branch view format limit hs, wr_eq_runOps]
  | succ n ih =>
    by_cases hz : view.shape.contains 0 = true
    · rw [format_array_zero_branch view format limit hz,
        trace_array_zero_branch view format limit hz, wr_eq_runOps]
    · have hz' : view.shape.contains 0 = false := by simpa using hz
      rcases hsh : view.shape with _ | ⟨d, _ | ⟨d1, rest⟩⟩
      · rw [hsh] at hn
        simp at hn
      · rw [format_array_one_branch view format limit d hsh hz',
          trace_array_one_branch view format limit d hsh hz',
          format_1d_array_eq_runOps]
      · have hlen : ∀ i : Nat, (view.index_axis i).shape.length = n := by
          intro i
          rw [hsh] at hn
          simp only [View.index_axis, hsh, List.tail_cons]
          simpa using hn
        rw [format_array_nd_branch view format limit d d1 rest hsh hz',
          trace_array_nd_branch view format limit d d1 rest hsh hz',
          format_nd_go_eq_runOps
            (fun i => format_array (view.index_axis i) format limit)
            (fun i => trace_array (view.index_axis i) format limit)
            (fun i => ih (view.index_axis i) (hlen i)),
          runOps_append, runOps_cons, ← wr_eq_runOps, fmtBind_assoc]

/-! Execution of the reference machine under concrete oracles. -/

theorem runOps_cons_apply (f : String) (fr : List String) (orc : Oracle)
    (s : St) :
    runOps (f :: fr) orc s
      = if orc s.calls
        then ({ calls := s.calls + 1, out := s.out }, false)
        else runOps fr orc { calls := s.calls + 1, out := s.out ++ [f] } := by
  rw [runOps_cons]
  simp only [fmtBind, wr]
  by_cases horc : orc s.calls = true <;> simp [horc]

theorem runOps_allOk (fr : List String) (s : St) :
    runOps fr allOk s
      = ({ calls := s.calls + fr.length, out := s.out ++ fr }, true) := by
  induction fr generalizing s with
  | nil => simp [runOps_nil, fmtPure]
  | cons f rest ih =>
    rw [runOps_cons_apply]
    have horc : allOk s.calls = false := rfl
    rw [horc]
    simp only [Bool.false_eq_true, if_false, ih, List.length_cons]
    have hc : s.calls + 1 + rest.length = s.calls + (rest.length + 1) := by
      omega
    simp [hc]

theorem runOps_failAt_lt (fr : List String) (s : St) (k : Nat)
    (hk : k < fr.length) :
    runOps fr (failAt (s.calls + k)) s
      = ({ calls := s.calls + k + 1, out := s.out ++ fr.take k }, false) := by
  induction fr generalizing s k with
  | nil => simp at hk
  | cons f rest ih =>
    rw [runOps_cons_apply]
    cases k with
    | zero =>
      have horc : failAt (s.calls + 0) s.calls = true := by
        simp [failAt]
      rw [horc]
      simp
    | succ k =>
      have horc : failAt (s.calls + (k + 1)) s.calls = false := by
        simp only [failAt, beq_eq_false_iff_ne, ne_eq]
        omega
      rw [horc]
      simp only [Bool.false_eq_true, if_false]
      have hidx : s.calls + (k + 1) = (s.calls + 1) + k := by omega
      rw [hidx]
      have hk' : k < rest.length := by
        simp only [List.length_cons] at hk
        omega
      have := ih { calls := s.calls + 1, out := s.out ++ [f] } k hk'
      simp only at this
      rw [this]
      have hc : s.calls + 1 + k + 1 = s.calls + (k + 1) + 1 := by omega
      simp [hc, List.take_succ_cons]

theorem runOps_failAt_ge (fr : List String) (s : St) (k : Nat)
    (hk : fr.length ≤ k) :
    runOps fr (failAt (s.calls + k)) s
      = ({ calls := s.calls + fr.length, out := s.out ++ fr }, true) := by
  induction fr generalizing s k with
  | nil => simp [runOps_nil, fmtPure]
  | cons f rest ih =>
    simp only [List.length_cons] at hk
    rw [runOps_cons_apply]
    have horc : failAt (s.calls + k) s.calls = false := by
      simp only [failAt, beq_eq_false_iff_ne, ne_eq]
      omega
    rw [horc]
    simp only [Bool.false_eq_true, if_false]
    have hidx : s.calls + k = (s.calls + 1) + (k - 1) := by omega
    rw [hidx]
    have hk' : rest.length ≤ k - 1 := by omega
    have := ih { calls := s.calls + 1, out := s.out ++ [f] } (k - 1) hk'
    simp only at this
    rw [this]
    have hc : s.calls + 1 + rest.length = s.calls + (rest.length + 1) := by
      omega
    simp [hc]

/-! Observations on planner cells. -/

/-- Whether a cell is an element cell. -/
def isElementIndex : PrintableCell → Bool
  | PrintableCell.elementIndex _ => true
  | PrintableCell.ellipses => false

/-- Whether a cell is the ellipsis cell. -/
def isEllipses : PrintableCell → Bool
  | PrintableCell.elementIndex _ => false
  | PrintableCell.ellipses => true

/-- The element index carried by a cell, if any. -/
def cellIndex : PrintableCell → Option Nat
  | PrintableCell.elementIndex i => some i
  | PrintableCell.ellipses => none

/-- The list of element indices selected by a cell list, in order. -/
def cellIndices (cells : List PrintableCell) : List Nat :=
  cells.filterMap cellIndex

/-- filterMap of cellIndex over element cells recovers the index list. -/
theorem filterMap_cellIndex_map (l : List Nat) :
    List.filterMap cellIndex (l.map PrintableCell.elementIndex) = l := by
  induction l with
  | nil => rfl
  | cons x xs ih => simp [cellIndex, ih]

/-- Every mapped element cell counts as an element cell. -/
theorem countP_isElementIndex_map (l : List Nat) :
    (l.map PrintableCell.elementIndex).countP isElementIndex = l.length := by
  induction l with
  | nil => rfl
  | cons x xs ih => simp [List.countP_cons, isElementIndex, ih]

/-- No mapped element cell counts as an ellipsis. -/
theorem countP_isEllipses_map (l : List Nat) :
    (l.map PrintableCell.elementIndex).countP isEllipses = 0 := by
  induction l with
  | nil => rfl
  | cons x xs ih => simp [List.countP_cons, isEllipses, ih]

/-- C1: with the fixed limit K = 3, the planner returns, for L ≤ 2K,
exactly L element cells with ascending indices 0..L and no ellipsis; for
L > 2K, exactly 2K element cells plus exactly one ellipsis, the first K
cells carrying indices 0..K, the ellipsis at position K, the last K cells
carrying indices (L-K)..L, all indices ascending. -/
theorem to_be_printed_plan (L : Nat) :
    (L ≤ 2 * PRINT_ELEMENTS_LIMIT →
      (to_be_printed L PRINT_ELEMENTS_LIMIT).length = L ∧
      (to_be_printed L PRINT_ELEMENTS_LIMIT).countP isElementIndex = L ∧
      (to_be_printed L PRINT_ELEMENTS_LIMIT).countP isEllipses = 0 ∧
      cellIndices (to_be_printed L PRINT_ELEMENTS_LIMIT) = List.range L ∧
      (cellIndices (to_be_printed L PRINT_ELEMENTS_LIMIT)).Pairwise (· < ·))
    ∧
    (2 * PRINT_ELEMENTS_LIMIT < L →
      (to_be_printed L PRINT_ELEMENTS_LIMIT).countP isElementIndex
          = 2 * PRINT_ELEMENTS_LIMIT ∧
      (to_be_printed L PRINT_ELEMENTS_LIMIT).countP isEllipses = 1 ∧
      (to_be_printed L PRINT_ELEMENTS_LIMIT).take PRINT_ELEMENTS_LIMIT
          = (List.range PRINT_ELEMENTS_LIMIT).map PrintableCell.elementIndex ∧
      (to_be_printed L PRINT_ELEMENTS_LIMIT)[PRINT_ELEMENTS_LIMIT]?
          = some PrintableCell.ellipses ∧
      (to_be_printed L PRINT_ELEMENTS_LIMIT).drop (PRINT_ELEMENTS_LIMIT + 1)
          = (List.range' (L - PRINT_ELEMENTS_LIMIT)
              PRINT_ELEMENTS_LIMIT).map PrintableCell.elementIndex ∧
      cellIndices (to_be_printed L PRINT_ELEMENTS_LIMIT)
          = List.range PRINT_ELEMENTS_LIMIT
            ++ List.range' (L - PRINT_ELEMENTS_LIMIT) PRINT_ELEMENTS_LIMIT ∧
      (cellIndices (to_be_printed L PRINT_ELEMENTS_LIMIT)).Pairwise (· < ·))
    := by
  constructor
  · intro hL
    simp only [PRINT_ELEMENTS_LIMIT] at hL
    have hc : to_be_printed L PRINT_ELEMENTS_LIMIT
        = (List.range L).map PrintableCell.elementIndex := by
      simp only [to_be_printed, PRINT_ELEMENTS_LIMIT]
      rw [if_pos (by omega)]
    have hidx : cellIndices (to_be_printed L PRINT_ELEMENTS_LIMIT)
        = List.range L := by
      rw [hc]
      exact filterMap_cellIndex_map (List.range L)
    refine ⟨by simp [hc], ?_, ?_, hidx, ?_⟩
    · rw [hc, countP_isElementIndex_map]
      simp
    · rw [hc, countP_isEllipses_map]
    · rw [hidx]
      exact List.pairwise_lt_range L
  · intro hL
    simp only [PRINT_ELEMENTS_LIMIT] at hL
    have hc : to_be_printed L PRINT_ELEMENTS_LIMIT
        = ((List.range PRINT_ELEMENTS_LIMIT).map PrintableCell.elementIndex
            ++ [PrintableCell.ellipses])
          ++ (List.range' (L - PRINT_ELEMENTS_LIMIT)
              PRINT_ELEMENTS_LIMIT).map PrintableCell.elementIndex := by
      simp only [to_be_printed, PRINT_ELEMENTS_LIMIT]
      rw [if_neg (by omega)]
    have hidx : cellIndices (to_be_printed L PRINT_ELEMENTS_LIMIT)
        = List.range PRINT_ELEMENTS_LIMIT
          ++ List.range' (L - PRINT_ELEMENTS_LIMIT) PRINT_ELEMENTS_LIMIT := by
      rw [hc]
      simp only [cellIndices, List.filterMap_append,
        filterMap_cellIndex_map]
      simp [cellIndex]
    refine ⟨?_, ?_, ?_, ?_, ?_, hidx, ?_⟩
    · rw [hc]
      simp only [List.countP_append, countP_isElementIndex_map]
      simp [List.countP_cons, isElementIndex, PRINT_ELEMENTS_LIMIT]
    · rw [hc]
      simp only [List.countP_append, countP_isEllipses_map]
      simp [List.countP_cons, isEllipses]
    · rw [hc, List.append_assoc]
      exact List.take_left' (by simp)
    · rw [hc, List.append_assoc, List.getElem?_append_right (by simp)]
      simp
    · rw [hc]
      exact List.drop_left' (by simp)
    · rw [hidx, List.pairwise_append]
      refine ⟨List.pairwise_lt_range _, List.pairwise_lt_range' _ _, ?_⟩
      intro a ha b hb
      have ha' : a < PRINT_ELEMENTS_LIMIT := List.mem_range.mp ha
      have hb' : L - PRINT_ELEMENTS_LIMIT ≤ b := (List.mem_range'_1.mp hb).1
      simp only [PRINT_ELEMENTS_LIMIT] at ha' hb'
      omega

/-- Witness for C1: both branches at concrete lengths 3 and 11. -/
theorem to_be_printed_plan_witness :
    cellIndices (to_be_printed 3 PRINT_ELEMENTS_LIMIT) = List.range 3 ∧
    (to_be_printed 11 PRINT_ELEMENTS_LIMIT).countP isEllipses = 1 :=
  ⟨((to_be_printed_plan 3).1 (by decide)).2.2.2.1,
   ((to_be_printed_plan 11).2 (by decide)).2.1⟩

/-! String join helpers. -/

theorem string_foldl_append (l : List String) (a : String) :
    l.foldl (· ++ ·) a = a ++ l.foldl (· ++ ·) "" := by
  induction l generalizing a with
  | nil => simp
  | cons x xs ih =>
    rw [List.foldl_cons, List.foldl_cons, ih, ih ("" ++ x),
      String.empty_append, String.append_assoc]

theorem join_cons (s : String) (l : List String) :
    String.join (s :: l) = s ++ String.join l := by
  show (s :: l).foldl (· ++ ·) "" = s ++ l.foldl (· ++ ·) ""
  rw [List.foldl_cons, String.empty_append, string_foldl_append]

theorem join_nil : String.join ([] : List String) = "" := rfl

theorem join_append (a b : List String) :
    String.join (a ++ b) = String.join a ++ String.join b := by
  induction a with
  | nil => simp [join_nil]
  | cons x xs ih =>
    rw [List.cons_append, join_cons, join_cons, ih, String.append_assoc]

theorem join_singleton (s : String) : String.join [s] = s := by
  rw [join_cons, join_nil, String.append_empty]

/-- C2: a view with a zero-length axis renders, whatever the element
formatter and limit (hence in every flavor), as exactly one write of
rank opening brackets followed by rank closing brackets, and nothing
else. -/
theorem zero_axis_render (view : View α) (format : α → String)
    (limit : Nat) (h : view.shape.contains 0 = true) :
    format_array view format limit allOk St.init
      = ({ calls := 1,
           out := [strRepeat "[" view.ndim ++ strRepeat "]" view.ndim] },
         true)
    ∧ renderOut view format limit
        = strRepeat "[" view.ndim ++ strRepeat "]" view.ndim := by
  have h1 : format_array view format limit allOk St.init
      = ({ calls := 1,
           out := [strRepeat "[" view.ndim ++ strRepeat "]" view.ndim] },
         true) := by
    rw [format_array_zero_branch view format limit h]
    simp [wr, allOk, St.init]
  refine ⟨h1, ?_⟩
  rw [renderOut, h1, join_singleton]

/-- Witness for C2: shape (2,0) renders as [[]] and shape (3,0,4) as
[[[]]]. -/
theorem zero_axis_render_witness :
    renderOut (View.mk [2, 0] (fun _ => (0 : Nat)) [0, 1] "c" (some 2))
        (fun a => toString a) PRINT_ELEMENTS_LIMIT = "[[]]" ∧
    renderOut (View.mk [3, 0, 4] (fun _ => (0 : Nat)) [0, 4, 1] "c" none)
        (fun a => toString a) PRINT_ELEMENTS_LIMIT = "[[[]]]" := by
  constructor
  · rw [(zero_axis_render (View.mk [2, 0] (fun _ => (0 : Nat)) [0, 1] "c"
      (some 2)) (fun a => toString a) PRINT_ELEMENTS_LIMIT (by decide)).2]
    rfl
  · rw [(zero_axis_render (View.mk [3, 0, 4] (fun _ => (0 : Nat)) [0, 4, 1]
      "c" none) (fun a => toString a) PRINT_ELEMENTS_LIMIT (by decide)).2]
    rfl

/-- C7: a rank-0 view (empty shape) renders as exactly one
element-formatter call on the sole element, writing nothing else: the
output is the scalar's own text, with no brackets. -/
theorem rank0_scalar_render (view : View α) (format : α → String)
    (limit : Nat) (hs : view.shape = []) :
    format_array view format limit allOk St.init
      = ({ calls := 1, out := [format (view.get [])] }, true)
    ∧ renderOut view format limit = format (view.get []) := by
  have h1 : format_array view format limit allOk St.init
      = ({ calls := 1, out := [format (view.get [])] }, true) := by
    rw [format_array_scalar_branch view format limit hs]
    simp [wr, allOk, St.init]
  refine ⟨h1, ?_⟩
  rw [renderOut, h1, join_singleton]

/-- Witness for C7: the rank-0 array holding 12 renders as 12, with no
brackets. -/
theorem rank0_scalar_render_witness :
    renderOut (View.mk [] (fun _ => (12 : Nat)) [] "CFcf" (some 0))
        (fun a => toString a) PRINT_ELEMENTS_LIMIT = "12" := by
  rw [(rank0_scalar_render (View.mk [] (fun _ => (12 : Nat)) [] "CFcf"
    (some 0)) (fun a => toString a) PRINT_ELEMENTS_LIMIT rfl).2]
  rfl

/-- Specification-side text of one planner cell in the one-dimensional
renderer, following the spec: an element cell contributes the element's
text and, unless it is the last cell, the separator; an ellipsis cell
contributes the literal marker unconditionally. -/
def specCellText1d (format : α → String) (get1 : Nat → α) (last : Bool) :
    PrintableCell → String
  | PrintableCell.elementIndex i =>
    format (get1 i) ++ (if last then "" else ", ")
  | PrintableCell.ellipses => "..., "

/-- Specification-side rendering of a rank-1 axis of length len. -/
def spec_render_1d (len : Nat) (get1 : Nat → α) (format : α → String)
    (limit : Nat) : String :=
  let tbp := to_be_printed len limit
  "[" ++ String.join (tbp.enum.map
      (fun jc => specCellText1d format get1 (jc.1 == tbp.length - 1) jc.2))
    ++ "]"

theorem trace_1d_go_join (view : View α) (format : α → String)
    (cells : List PrintableCell) (j n : Nat) :
    String.join (trace_1d_go view format cells j n)
      = String.join ((cells.enumFrom j).map
          (fun jc => specCellText1d format (fun i => view.get [i])
            (jc.1 == n - 1) jc.2)) := by
  induction cells generalizing j with
  | nil => rfl
  | cons c rest ih =>
    cases c with
    | elementIndex i =>
      by_cases hj : j = n - 1
      · simp [trace_1d_go, List.enumFrom, specCellText1d, join_cons,
          join_append, ih, hj, String.append_assoc]
      · simp [trace_1d_go, List.enumFrom, specCellText1d, join_cons,
          join_append, ih, hj, String.append_assoc]
    | ellipses =>
      simp [trace_1d_go, List.enumFrom, specCellText1d, join_cons, ih]

/-- C3: a rank-1 render writes the opening bracket, then for each planner
cell in ascending order the element's text (with the separator unless
last) or the unconditional ellipsis literal, then the closing bracket. -/
theorem format_1d_refines_spec (view : View α) (format : α → String)
    (limit : Nat) (L : Nat) (hs : view.shape = [L]) (hL : L ≠ 0) :
    renderOut view format limit
      = spec_render_1d L (fun i => view.get [i]) format limit := by
  have hz : view.shape.contains 0 = false := by
    rw [hs]
    simpa using fun h => hL h.symm
  unfold renderOut
  rw [format_array_eq_runOps, runOps_allOk]
  simp only [St.init, List.nil_append]
  rw [trace_array_one_branch view format limit L hs hz]
  have hlen : view.len = L := by simp [View.len, hs]
  simp only [trace_1d, hlen]
  rw [join_append, join_cons, join_singleton, trace_1d_go_join]
  simp [spec_render_1d, List.enum]

/-- Witness for C3, Scenario C: a 1-d array of eleven ones with K = 3
renders as [1, 1, 1, ..., 1, 1, 1]. -/
theorem format_1d_refines_spec_witness :
    renderOut (View.mk [11] (fun _ => (1 : Nat)) [1] "Cc" (some 1))
        (fun a => toString a) PRINT_ELEMENTS_LIMIT
      = "[1, 1, 1, ..., 1, 1, 1]" := by
  rw [format_1d_refines_spec (View.mk [11] (fun _ => (1 : Nat)) [1] "Cc"
    (some 1)) (fun a => toString a) PRINT_ELEMENTS_LIMIT 11 rfl
    (by decide)]
  rfl

theorem trace_1d_go_last (view : View α) (format : α → String)
    (cells : List PrintableCell) (j n i : Nat) :
    n = j + cells.length →
    cells.getLast? = some (PrintableCell.elementIndex i) →
    ∃ pre, trace_1d_go view format cells j n
        = pre ++ [format (view.get [i])] := by
  induction cells generalizing j with
  | nil =>
    intro hn hlast
    simp at hlast
  | cons c rest ih =>
    intro hn hlast
    cases rest with
    | nil =>
      simp only [List.getLast?_singleton, Option.some.injEq] at hlast
      subst hlast
      refine ⟨[], ?_⟩
      subst hn
      simp [trace_1d_go]
    | cons c2 rest2 =>
      have hlast2 : (c2 :: rest2).getLast?
          = some (PrintableCell.elementIndex i) := by
        rw [← hlast, List.getLast?_cons_cons]
      have hn2 : n = (j + 1) + (c2 :: rest2).length := by
        simp only [List.length_cons] at hn ⊢
        omega
      obtain ⟨pre, hpre⟩ := ih (j + 1) hn2 hlast2
      cases c with
      | elementIndex i2 =>
        refine ⟨(format (view.get [i2])
            :: (if j ≠ n - 1 then [", "] else [])) ++ pre, ?_⟩
        simp [trace_1d_go, hpre, List.append_assoc]
      | ellipses =>
        refine ⟨"..., " :: pre, ?_⟩
        simp [trace_1d_go, hpre]

/-- C8: for every axis length L ≥ 1 and limit K ≥ 1, the planner's last
cell is an element cell (carrying index L-1), never the ellipsis; hence
in a rank-1 render the fragment written immediately before the closing
bracket is the last element's text, not the inline ellipsis literal. -/
theorem planner_last_cell_element {α : Type} (L K : Nat) (hL : 1 ≤ L)
    (hK : 1 ≤ K) :
    (to_be_printed L K).getLast?
        = some (PrintableCell.elementIndex (L - 1)) ∧
    ∀ (view : View α) (format : α → String), view.shape = [L] →
      ∃ pre, trace_array view format K
          = pre ++ [format (view.get [L - 1]), "]"] := by
  have h1 : (to_be_printed L K).getLast?
      = some (PrintableCell.elementIndex (L - 1)) := by
    unfold to_be_printed
    by_cases hcase : L ≤ 2 * K
    · rw [if_pos hcase]
      obtain ⟨m, rfl⟩ : ∃ m, L = m + 1 := ⟨L - 1, by omega⟩
      rw [List.range_succ, List.map_append]
      simp
    · rw [if_neg hcase]
      obtain ⟨k, rfl⟩ : ∃ k, K = k + 1 := ⟨K - 1, by omega⟩
      rw [List.range'_1_concat, List.map_append, ← List.append_assoc]
      simp only [List.map_cons, List.map_nil]
      rw [List.getLast?_concat]
      have harith : L - (k + 1) + k = L - 1 := by omega
      rw [harith]
  refine ⟨h1, ?_⟩
  intro view format hs
  have hz : view.shape.contains 0 = false := by
    rw [hs]
    simpa using fun h => by omega
  rw [trace_array_one_branch view format K L hs hz]
  have hlen : view.len = L := by simp [View.len, hs]
  simp only [trace_1d, hlen]
  obtain ⟨pre, hpre⟩ := trace_1d_go_last view format (to_be_printed L K) 0
    (to_be_printed L K).length (L - 1) (by omega) h1
  refine ⟨"[" :: pre, ?_⟩
  rw [hpre]
  simp

/-- Witness for C8 at L = 4, K = 1. -/
theorem planner_last_cell_element_witness :
    (to_be_printed 4 1).getLast? = some (PrintableCell.elementIndex 3) :=
  (planner_last_cell_element (α := Nat) 4 1 (by decide) (by decide)).1

theorem renderOut_eq_join_trace (view : View α) (format : α → String)
    (limit : Nat) :
    renderOut view format limit
      = String.join (trace_array view format limit) := by
  unfold renderOut
  rw [format_array_eq_runOps, runOps_allOk]
  simp [St.init]

/-- Specification-side text of one planner cell at rank ≥ 2: the
sub-view's full rendering plus the flat separator unless it is the last
cell; the ellipsis literal otherwise. -/
def specCellTextNd (sub : Nat → String) (last : Bool) :
    PrintableCell → String
  | PrintableCell.elementIndex i => sub i ++ (if last then "" else ",\n ")
  | PrintableCell.ellipses => "...,\n "

theorem trace_nd_go_join (subtr : Nat → List String)
    (cells : List PrintableCell) (j n : Nat) :
    String.join (trace_nd_go subtr cells j n)
      = String.join ((cells.enumFrom j).map
          (fun jc => specCellTextNd (fun i => String.join (subtr i))
            (jc.1 == n - 1) jc.2)) := by
  induction cells generalizing j with
  | nil => rfl
  | cons c rest ih =>
    cases c with
    | elementIndex i =>
      by_cases hj : j = n - 1
      · simp [trace_nd_go, List.enumFrom, specCellTextNd, join_cons,
          join_append, ih, hj, String.append_assoc]
      · simp [trace_nd_go, List.enumFrom, specCellTextNd, join_cons,
          join_append, ih, hj, String.append_assoc]
    | ellipses =>
      simp [trace_nd_go, List.enumFrom, specCellTextNd, join_cons, ih]

/-- C4: at rank ≥ 2 with no zero-length axis, the renderer writes the
opening bracket, then for each planner cell in ascending order either
the complete rendering of the sub-view fixing the leading axis to that
index (followed by the flat separator of comma, newline, one space,
unless it is the last cell) or the ellipsis marker, then the closing
bracket; the separator is the same at every depth. -/
theorem format_nd_refines_spec (view : View α) (format : α → String)
    (limit : Nat) (d0 d1 : Nat) (rest : List Nat)
    (hs : view.shape = d0 :: d1 :: rest)
    (hz : view.shape.contains 0 = false) :
    renderOut view format limit
      = "[" ++ String.join ((to_be_printed d0 limit).enum.map
          (fun jc => specCellTextNd
            (fun i => renderOut (view.index_axis i) format limit)
            (jc.1 == (to_be_printed d0 limit).length - 1) jc.2))
        ++ "]" := by
  simp only [renderOut_eq_join_trace]
  rw [trace_array_nd_branch view format limit d0 d1 rest hs hz]
  rw [join_append, join_cons, join_singleton, trace_nd_go_join]
  simp [List.enum]

/-- Witness for C4, Scenario F: a 3 by 9 array of ones with K = 3. -/
theorem format_nd_refines_spec_witness :
    renderOut (View.mk [3, 9] (fun _ => (1 : Nat)) [9, 1] "Cc" (some 2))
        (fun a => toString a) PRINT_ELEMENTS_LIMIT
      = "[[1, 1, 1, ..., 1, 1, 1],\n [1, 1, 1, ..., 1, 1, 1],\n [1, 1, 1, ..., 1, 1, 1]]" := by
  have hrow : ∀ i : Nat,
      renderOut (View.index_axis
          (View.mk [3, 9] (fun _ => (1 : Nat)) [9, 1] "Cc" (some 2)) i)
        (fun a => toString a) PRINT_ELEMENTS_LIMIT
      = "[1, 1, 1, ..., 1, 1, 1]" := by
    intro i
    have hview : View.index_axis
        (View.mk [3, 9] (fun _ => (1 : Nat)) [9, 1] "Cc" (some 2)) i
        = View.mk [9] (fun _ => (1 : Nat)) [1] "Cc" none := rfl
    rw [hview, renderOut_eq_join_trace,
      trace_array_one_branch _ _ _ 9 rfl (by decide)]
    rfl
  rw [format_nd_refines_spec
    (View.mk [3, 9] (fun _ => (1 : Nat)) [9, 1] "Cc" (some 2))
    (fun a => toString a) PRINT_ELEMENTS_LIMIT 3 9 [] rfl (by decide)]
  simp only [hrow]
  rfl

/-- C5: a render under a fault-free sink and formatter produces exactly
its fragment trace; if the k-th primitive call fails, the render stops
at that call with failure — the call counter is k+1, no further call is
made, and the output is exactly the first k fragments already written;
if k is beyond the trace the run completes as in the fault-free case. -/
theorem render_fail_fast (view : View α) (format : α → String)
    (limit : Nat) (k : Nat) :
    (format_array view format limit allOk St.init
        = ({ calls := (trace_array view format limit).length,
             out := trace_array view format limit }, true)) ∧
    (k < (trace_array view format limit).length →
      format_array view format limit (failAt k) St.init
        = ({ calls := k + 1,
             out := (trace_array view format limit).take k }, false)) ∧
    ((trace_array view format limit).length ≤ k →
      format_array view format limit (failAt k) St.init
        = ({ calls := (trace_array view format limit).length,
             out := trace_array view format limit }, true)) := by
  refine ⟨?_, ?_, ?_⟩
  · rw [format_array_eq_runOps, runOps_allOk]
    simp [St.init]
  · intro hk
    rw [format_array_eq_runOps]
    have h := runOps_failAt_lt (trace_array view format limit) St.init k hk
    simpa [St.init] using h
  · intro hk
    rw [format_array_eq_runOps]
    have h := runOps_failAt_ge (trace_array view format limit) St.init k hk
    simpa [St.init] using h

/-- Witness for C5: rendering the 1-d array [7, 7] with call 2 failing
stops after three calls with output the two fragments already written. -/
theorem render_fail_fast_witness :
    format_array (View.mk [2] (fun _ => (7 : Nat)) [1] "Cc" (some 1))
        (fun a => toString a) PRINT_ELEMENTS_LIMIT (failAt 2) St.init
      = ({ calls := 3, out := ["[", "7"] }, false) := by
  have htr : trace_array (View.mk [2] (fun _ => (7 : Nat)) [1] "Cc"
      (some 1)) (fun a => toString a) PRINT_ELEMENTS_LIMIT
      = ["[", "7", ", ", "7", "]"] := by
    rw [trace_array_one_branch _ _ _ 2 rfl (by decide)]
    rfl
  have h := (render_fail_fast (View.mk [2] (fun _ => (7 : Nat)) [1] "Cc"
    (some 1)) (fun a => toString a) PRINT_ELEMENTS_LIMIT 2).2.1
    (by rw [htr]; decide)
  rw [htr] at h
  simpa using h

/-- C6: the Debug flavor output is the recursive body output followed,
when the body succeeded, by exactly one diagnostic suffix (shape,
strides, layout, then const ndim when the rank kind is fixed, dynamic
ndim otherwise); when the body fails, the suffix is not written and the
Debug run equals the body run unchanged. -/
theorem debug_appends_suffix (view : View α) (format : α → String) :
    debugOut view format
      = renderOut view format PRINT_ELEMENTS_LIMIT
        ++ debugShapeInfo view ++ debugNdimInfo view ∧
    (debugFmt view format allOk St.init).2 = true ∧
    ∀ (orc : Oracle) (s : St),
      (format_array view format PRINT_ELEMENTS_LIMIT orc s).2 = false →
      debugFmt view format orc s
        = format_array view format PRINT_ELEMENTS_LIMIT orc s := by
  have hdbg : debugFmt view format
      = runOps (trace_array view format PRINT_ELEMENTS_LIMIT
          ++ [debugShapeInfo view, debugNdimInfo view]) := by
    unfold debugFmt
    rw [format_array_eq_runOps, wr_eq_runOps, wr_eq_runOps,
      ← runOps_append, ← runOps_append]
    simp
  refine ⟨?_, ?_, ?_⟩
  · unfold debugOut
    rw [hdbg, runOps_allOk]
    simp only [St.init, List.nil_append]
    rw [join_append]
    unfold renderOut
    rw [format_array_eq_runOps, runOps_allOk]
    simp [St.init, join_cons, join_nil, String.append_assoc]
  · rw [hdbg, runOps_allOk]
  · intro orc s hfail
    unfold debugFmt
    simp only [fmtBind]
    rw [hfail]
    simp

/-- Witness for C6: Debug output of the 1-d array [1, 1] (const rank 1),
and suffix suppression when the very first call fails. -/
theorem debug_appends_suffix_witness :
    debugOut (View.mk [2] (fun _ => (1 : Nat)) [1] "CFcf" (some 1))
        (fun a => toString a)
      = "[1, 1] shape=[2], strides=[1], layout=CFcf, const ndim=1" ∧
    debugFmt (View.mk [2] (fun _ => (1 : Nat)) [1] "CFcf" (some 1))
        (fun a => toString a) (failAt 0) St.init
      = format_array (View.mk [2] (fun _ => (1 : Nat)) [1] "CFcf"
          (some 1)) (fun a => toString a) PRINT_ELEMENTS_LIMIT
          (failAt 0) St.init := by
  have h := debug_appends_suffix
    (View.mk [2] (fun _ => (1 : Nat)) [1] "CFcf" (some 1))
    (fun a => toString a)
  have htr : trace_array (View.mk [2] (fun _ => (1 : Nat)) [1] "CFcf"
      (some 1)) (fun a => toString a) PRINT_ELEMENTS_LIMIT
      = ["[", "1", ", ", "1", "]"] := by
    rw [trace_array_one_branch _ _ _ 2 rfl (by decide)]
    rfl
  constructor
  · rw [h.1]
    have hro : renderOut (View.mk [2] (fun _ => (1 : Nat)) [1] "CFcf"
        (some 1)) (fun a => toString a) PRINT_ELEMENTS_LIMIT
        = "[1, 1]" := by
      unfold renderOut
      rw [format_array_eq_runOps, runOps_allOk, htr]
      rfl
    rw [hro]
    rfl
  · refine h.2.2 (failAt 0) St.init ?_
    rw [format_array_eq_runOps, htr]
    decide

/-! Branch equations for the check-free and checked renderers. -/

theorem format_array_nocheck_scalar_branch (view : View α)
    (format : α → String) (limit : Nat) (hs : view.shape = []) :
    format_array_nocheck view format limit = wr (format (view.get [])) := by
  obtain ⟨sh, g, st, ly, nd⟩ := view
  change sh = [] at hs
  subst hs
  rw [format_array_nocheck.eq_def]

theorem format_array_nocheck_one_branch (view : View α)
    (format : α → String) (limit : Nat) (d : Nat)
    (hs : view.shape = [d]) :
    format_array_nocheck view format limit
      = format_1d_array view format limit := by
  obtain ⟨sh, g, st, ly, nd⟩ := view
  change sh = [d] at hs
  subst hs
  rw [format_array_nocheck.eq_def]

theorem format_array_nocheck_nd_branch (view : View α)
    (format : α → String) (limit : Nat) (d0 d1 : Nat) (rest : List Nat)
    (hs : view.shape = d0 :: d1 :: rest) :
    format_array_nocheck view format limit
      = fmtBind (wr "[")
          (fmtBind
            (format_nd_go
              (fun i => format_array_nocheck (view.index_axis i)
                format limit)
              (to_be_printed d0 limit) 0 (to_be_printed d0 limit).length)
            (wr "]")) := by
  obtain ⟨sh, g, st, ly, nd⟩ := view
  change sh = d0 :: d1 :: rest at hs
  subst hs
  rw [format_array_nocheck.eq_def]

theorem format_array_chk_zero_branch (view : View α)
    (format : α → String) (limit : Nat)
    (h : view.shape.contains 0 = true) :
    format_array_chk view format limit
      = some (wr (strRepeat "[" view.ndim ++ strRepeat "]" view.ndim)) := by
  rw [format_array_chk.eq_def, h]
  simp

theorem format_array_chk_scalar_branch (view : View α)
    (format : α → String) (limit : Nat) (hs : view.shape = []) :
    format_array_chk view format limit
      = (iterNext view).map (fun a => wr (format a)) := by
  obtain ⟨sh, g, st, ly, nd⟩ := view
  change sh = [] at hs
  subst hs
  rw [format_array_chk.eq_def]
  rfl

theorem format_array_chk_one_branch (view : View α)
    (format : α → String) (limit : Nat) (d : Nat)
    (hs : view.shape = [d]) (hz : view.shape.contains 0 = false) :
    format_array_chk view format limit
      = (into_dimensionality_Ix1 view).map
          (fun w => format_1d_array w format limit) := by
  obtain ⟨sh, g, st, ly, nd⟩ := view
  change sh = [d] at hs
  subst hs
  rw [format_array_chk.eq_def]
  rw [show (List.contains [d] 0) = false from hz]
  rfl

theorem format_array_chk_nd_branch (view : View α)
    (format : α → String) (limit : Nat) (d0 d1 : Nat) (rest : List Nat)
    (hs : view.shape = d0 :: d1 :: rest)
    (hz : view.shape.contains 0 = false) :
    format_array_chk view format limit
      = (format_nd_go_chk
            (fun i => format_array_chk (view.index_axis i) format limit)
            (to_be_printed d0 limit) 0 (to_be_printed d0 limit).length).map
          (fun body => fmtBind (wr "[") (fmtBind body (wr "]"))) := by
  obtain ⟨sh, g, st, ly, nd⟩ := view
  change sh = d0 :: d1 :: rest at hs
  subst hs
  rw [format_array_chk.eq_def]
  rw [show (List.contains (d0 :: d1 :: rest) 0) = false from hz]
  rfl

theorem format_nd_go_congr (sub1 sub2 : Nat → FmtM)
    (hsub : ∀ i, sub1 i = sub2 i) (cells : List PrintableCell)
    (j n : Nat) :
    format_nd_go sub1 cells j n = format_nd_go sub2 cells j n := by
  have h : sub1 = sub2 := funext hsub
  rw [h]

theorem format_nd_go_chk_eq (sub : Nat → Option FmtM) (sub2 : Nat → FmtM)
    (hsub : ∀ i, sub i = some (sub2 i)) (cells : List PrintableCell)
    (j n : Nat) :
    format_nd_go_chk sub cells j n = some (format_nd_go sub2 cells j n) := by
  induction cells generalizing j with
  | nil => rfl
  | cons c rest ih =>
    cases c with
    | elementIndex i =>
      simp [format_nd_go_chk, format_nd_go, hsub, ih]
    | ellipses =>
      simp [format_nd_go_chk, format_nd_go, ih]

theorem format_array_eq_nocheck (n : Nat) :
    ∀ (view : View α) (format : α → String) (limit : Nat),
      view.shape.length = n → view.shape.contains 0 = false →
      format_array view format limit
        = format_array_nocheck view format limit := by
  induction n with
  | zero =>
    intro view format limit hn hz
    have hs : view.shape = [] := List.length_eq_zero.mp hn
    rw [format_array_scalar_branch view format limit hs,
      format_array_nocheck_scalar_branch view format limit hs]
  | succ n ih =>
    intro view format limit hn hz
    rcases hsh : view.shape with _ | ⟨d, _ | ⟨d1, rest⟩⟩
    · rw [hsh] at hn
      simp at hn
    · rw [format_array_one_branch view format limit d hsh hz,
        format_array_nocheck_one_branch view format limit d hsh]
    · have htail : view.shape.tail.contains 0 = false := by
        rw [hsh]
        rw [hsh] at hz
        simp only [List.contains_cons, Bool.or_eq_false_iff] at hz
        simpa using hz.2
      have hlen : ∀ i : Nat, (view.index_axis i).shape.length = n := by
        intro i
        rw [hsh] at hn
        simp only [View.index_axis, hsh, List.tail_cons]
        simpa using hn
      have hz2 : ∀ i : Nat,
          (view.index_axis i).shape.contains 0 = false := by
        intro i
        simpa [View.index_axis] using htail
      rw [format_array_nd_branch view format limit d d1 rest hsh hz,
        format_array_nocheck_nd_branch view format limit d d1 rest hsh]
      rw [format_nd_go_congr
        (fun i => format_array (view.index_axis i) format limit)
        (fun i => format_array_nocheck (view.index_axis i) format limit)
        (fun i => ih (view.index_axis i) format limit (hlen i) (hz2 i))]

/-- C9: the zero-length-axis check reads the current view's shape only;
once a top-level view has no zero-length axis, every sub-view obtained by
fixing the leading axis also has none, and the render equals the render
with the check removed everywhere — so no recursive call ever takes the
short-circuit branch. -/
theorem zero_check_top_only (view : View α) (format : α → String)
    (limit : Nat) (hz : view.shape.contains 0 = false) :
    (∀ i : Nat, (view.index_axis i).shape.contains 0 = false) ∧
    format_array view format limit
      = format_array_nocheck view format limit := by
  constructor
  · intro i
    simp only [View.index_axis]
    cases hsh : view.shape with
    | nil => simp
    | cons d t =>
      rw [hsh] at hz
      simp only [List.contains_cons, Bool.or_eq_false_iff] at hz
      simpa using hz.2
  · exact format_array_eq_nocheck view.shape.length view format limit rfl hz

/-- Witness for C9 at the 2 by 2 array of ones. -/
theorem zero_check_top_only_witness :
    format_array (View.mk [2, 2] (fun _ => (1 : Nat)) [2, 1] "Cc"
        (some 2)) (fun a => toString a) PRINT_ELEMENTS_LIMIT
      = format_array_nocheck (View.mk [2, 2] (fun _ => (1 : Nat)) [2, 1]
          "Cc" (some 2)) (fun a => toString a) PRINT_ELEMENTS_LIMIT :=
  (zero_check_top_only (View.mk [2, 2] (fun _ => (1 : Nat)) [2, 1] "Cc"
    (some 2)) (fun a => toString a) PRINT_ELEMENTS_LIMIT (by decide)).2

/-- C10: with the two unwrap calls made explicit, the renderer never
panics: for every view the checked renderer returns some computation,
equal to format_array — once the zero-axis check has passed, a rank-0
view's iterator yields its sole element, and a rank-1 view always
converts to the one-dimensional view type. -/
theorem format_array_chk_total (view : View α) (format : α → String)
    (limit : Nat) :
    format_array_chk view format limit
      = some (format_array view format limit) := by
  generalize hn : view.shape.length = n
  induction n generalizing view with
  | zero =>
    have hs : view.shape = [] := List.length_eq_zero.mp hn
    rw [format_array_chk_scalar_branch view format limit hs,
      format_array_scalar_branch view format limit hs]
    have hiter : iterNext view = some (view.get []) := by
      unfold iterNext
      rw [hs]
      simp
    rw [hiter, Option.map_some']
  | succ n ih =>
    by_cases hz : view.shape.contains 0 = true
    · rw [format_array_chk_zero_branch view format limit hz,
        format_array_zero_branch view format limit hz]
    · have hz' : view.shape.contains 0 = false := by simpa using hz
      rcases hsh : view.shape with _ | ⟨d, _ | ⟨d1, rest⟩⟩
      · rw [hsh] at hn
        simp at hn
      · rw [format_array_chk_one_branch view format limit d hsh hz',
          format_array_one_branch view format limit d hsh hz']
        have hconv : into_dimensionality_Ix1 view = some view := by
          unfold into_dimensionality_Ix1
          rw [hsh]
          simp
        rw [hconv, Option.map_some']
      · have hlen : ∀ i : Nat, (view.index_axis i).shape.length = n := by
          intro i
          rw [hsh] at hn
          simp only [View.index_axis, hsh, List.tail_cons]
          simpa using hn
        rw [format_array_chk_nd_branch view format limit d d1 rest hsh hz',
          format_array_nd_branch view format limit d d1 rest hsh hz']
        rw [format_nd_go_chk_eq
          (fun i => format_array_chk (view.index_axis i) format limit)
          (fun i => format_array (view.index_axis i) format limit)
          (fun i => ih (view.index_axis i) (hlen i))]
        rfl

end NdarrayFormat
